import Mathlib

/-!
Verification of the tangram puzzle program (`src/tangram.py`).

The first half of this file is a shallow embedding of the directive parser
(`TangramPuzzle._parse_tex`): the input is modelled as the list of its raw
lines, Python strings as `String`/`List Char`, Python `int(...)` failures and
the `IndexError`/`AssertionError` control flow as an `Except` monad.

The second half embeds the vertex resolver (`_rotate`, `_compute_vertices`)
and the bounding-box computation of the emitter (`draw_pieces`) over `ℝ`,
with Python's `round(x, 5)` modelled as exact rounding to a 5-decimal grid.
-/

namespace Tangram

/-- The per-piece transform record built by `_parse_tex` (lines 54-58):
x-flip flag, y-flip flag, rotation in degrees. -/
structure Transform where
  xflip : Bool
  yflip : Bool
  rotate : Int
deriving DecidableEq, Repr

/-- One entry of `self.pieces` (lines 59-64): assigned label, integer anchor
coordinates and the transform record. -/
structure Piece where
  name : String
  x : Int
  y : Int
  transform : Transform
deriving DecidableEq, Repr

/-- The ways `_parse_tex` can fail: `valueError s` models Python's
`ValueError` raised by `int(s)` on a non-integer string, `indexError` models
the `IndexError` raised by `piece_labels[piece_index]` when `piece_index ≥ 7`
(line 54), and `assertCount n` models the `AssertionError` of line 69 whose
message is "Expected 7 pieces, found n". -/
inductive ParseError where
  | valueError (s : String)
  | indexError
  | assertCount (found : Nat)
deriving DecidableEq, Repr

/-- Decidable equality of parse results, used to evaluate the parser on
concrete inputs in witnesses and counterexamples. -/
instance {ε α : Type} [DecidableEq ε] [DecidableEq α] : DecidableEq (Except ε α) := fun x y =>
  match x, y with
  | .ok a, .ok b =>
    if h : a = b then .isTrue (by rw [h]) else .isFalse (by intro hh; cases hh; exact h rfl)
  | .error a, .error b =>
    if h : a = b then .isTrue (by rw [h]) else .isFalse (by intro hh; cases hh; exact h rfl)
  | .ok _, .error _ => .isFalse (by intro hh; cases hh)
  | .error _, .ok _ => .isFalse (by intro hh; cases hh)

/-- The fixed label list of lines 14-22. -/
def pieceLabels : List String :=
  ["Large triangle 1", "Large triangle 2", "Medium triangle",
   "Small triangle 1", "Small triangle 2", "Square", "Parallelogram"]

/-- Python `str.strip` whitespace characters. -/
def isPySpace (c : Char) : Bool :=
  c = ' ' || c = '\t' || c = '\n' || c = '\r' || c = '\x0b' || c = '\x0c'

/-- Python `str.strip()` on a character list. -/
def pyStrip (l : List Char) : List Char :=
  ((l.dropWhile isPySpace).reverse.dropWhile isPySpace).reverse

/-- Value of a nonempty all-digit character run, `none` otherwise. -/
def digitsVal (cs : List Char) : Option Nat :=
  if cs ≠ [] ∧ cs.all (·.isDigit) then
    some (cs.foldl (fun a c => a * 10 + (c.toNat - 48)) 0)
  else none

/-- Python `int(s)` on a string: strip whitespace, optional sign, decimal
digits; `none` models the `ValueError` raised otherwise.  (Python's digit
grouping underscores are not modelled; no claim depends on them.) -/
def pyInt (cs : List Char) : Option Int :=
  match pyStrip cs with
  | '+' :: ds => (digitsVal ds).map Int.ofNat
  | '-' :: ds => (digitsVal ds).map fun v => -(v : Int)
  | ds => (digitsVal ds).map Int.ofNat

/-- Python `str.split(c)` on character lists. -/
def splitOnChar (c : Char) : List Char → List (List Char)
  | [] => [[]]
  | x :: xs =>
    if x = c then [] :: splitOnChar c xs
    else
      match splitOnChar c xs with
      | [] => [[x]]
      | h :: t => (x :: h) :: t

/-- Python substring test `pat in l`. -/
def hasSubstr (pat : List Char) : List Char → Bool
  | [] => pat.isPrefixOf []
  | c :: cs => pat.isPrefixOf (c :: cs) || hasSubstr pat cs

/-- The literal head of the directive regex of line 34. -/
def litPT : List Char := "\\PieceTangram[TangSol]".toList

/-- Matches the regex tail after the literal and the optional option
group: one or more non-comma characters, a comma, one or more
non-parenthesis characters, a closing parenthesis immediately followed by an
open brace, one or more non-brace characters and a closing brace.  Returns
the X, Y and TYPE capture groups. -/
def matchCore (r : List Char) : Option (List Char × List Char × List Char) :=
  match r with
  | '(' :: r1 =>
    let xs := r1.takeWhile (· ≠ ',')
    match xs, r1.dropWhile (· ≠ ',') with
    | _ :: _, ',' :: r3 =>
      let ys := r3.takeWhile (· ≠ ')')
      match ys, r3.dropWhile (· ≠ ')') with
      | _ :: _, ')' :: '{' :: r5 =>
        let ty := r5.takeWhile (· ≠ '}')
        match ty, r5.dropWhile (· ≠ '}') with
        | _ :: _, '}' :: _ => some (xs, ys, ty)
        | _, _ => none
      | _, _ => none
    | _, _ => none
  | _ => none

/-- Attempts a match of the directive regex anchored at the start of `l`:
the literal head, then (greedily, with the regex's backtracking) an optional
angle-bracketed option group, then `matchCore`. -/
def matchAt (l : List Char) : Option (Option (List Char) × List Char × List Char × List Char) :=
  if litPT.isPrefixOf l then
    let r := l.drop litPT.length
    (match r with
     | '<' :: r1 =>
       let os := r1.takeWhile (· ≠ '>')
       match r1.dropWhile (· ≠ '>') with
       | '>' :: r3 => (matchCore r3).map fun g => (some os, g)
       | _ => none
     | _ => none) <|>
    (matchCore r).map fun g => (none, g)
  else none

/-- `re.search` of the directive regex: the leftmost position where the
pattern matches. -/
def matchSearch : List Char → Option (Option (List Char) × List Char × List Char × List Char)
  | [] => none
  | c :: cs => matchAt (c :: cs) <|> matchSearch cs

/-- `line.replace(" ", "")` of line 35. -/
def despace (s : String) : List Char := s.toList.filter (· ≠ ' ')

/-- Fresh per-line transform state (lines 41-42): no flips, rotation 0. -/
def initTransform : Transform := ⟨false, false, 0⟩

/-- One iteration of the option loop (lines 46-52) on an already-stripped
option token.  `Int.emod` models Python's `%`, which agrees with Euclidean
mod for the positive modulus 360. -/
def applyOpt (tf : Transform) (o : List Char) : Except ParseError Transform :=
  if o = "xscale=-1".toList then .ok { tf with xflip := true }
  else if o = "yscale=-1".toList then .ok { tf with yflip := true }
  else if "rotate=".toList.isPrefixOf o then
    let v := ((splitOnChar '=' o).drop 1).headD []
    match pyInt v with
    | some n => .ok { tf with rotate := Int.emod n 360 }
    | none => .error (.valueError ⟨v⟩)
  else .ok tf

/-- The option loop of lines 46-52 over the stripped option tokens. -/
def foldOpts : Transform → List (List Char) → Except ParseError Transform
  | tf, [] => .ok tf
  | tf, o :: os =>
    match applyOpt tf o with
    | .error e => .error e
    | .ok tf' => foldOpts tf' os

/-- Lines 44-52: `if options_str:` (both a missing group and an empty group
are falsy) then split on commas, strip each token and fold the option loop
starting from the fresh transform. -/
def parseOptions (o : Option (List Char)) : Except ParseError Transform :=
  match o with
  | none => .ok initTransform
  | some cs =>
    if cs = [] then .ok initTransform
    else foldOpts initTransform ((splitOnChar ',' cs).map pyStrip)

/-- Lines 34-66 for a single loop iteration: search the regex in the
despaced line; on no match skip (`.ok none`); otherwise parse the options,
look the label up at the current index (an out-of-range index is the
`IndexError` of line 54), convert the anchor fields with `int` and produce
the piece.  The evaluation order (options, then label, then x, then y)
follows the source. -/
def handleLine (idx : Nat) (l : String) : Except ParseError (Option Piece) :=
  match matchSearch (despace l) with
  | none => .ok none
  | some (optsStr, xs, ys, _ty) =>
    match parseOptions optsStr with
    | .error e => .error e
    | .ok tf =>
      if hidx : idx < pieceLabels.length then
        match pyInt xs with
        | none => .error (.valueError ⟨xs⟩)
        | some x =>
          match pyInt ys with
          | none => .error (.valueError ⟨ys⟩)
          | some y => .ok (some ⟨pieceLabels.get ⟨idx, hidx⟩, x, y, tf⟩)
      else .error .indexError

/-- The main loop of lines 32-69 over the filtered lines, carrying
`piece_index` and the accumulated `self.pieces`; after the loop, the assert
of line 69 fires unless exactly 7 pieces were built. -/
def processLines : List String → Nat → List Piece → Except ParseError (List Piece)
  | [], idx, acc => if idx = 7 then .ok acc else .error (.assertCount idx)
  | l :: ls, idx, acc =>
    match handleLine idx l with
    | .error e => .error e
    | .ok none => processLines ls idx acc
    | .ok (some p) => processLines ls (idx + 1) (acc ++ [p])

/-- The line filter of line 30: the raw line contains the `\PieceTangram`
literal and its stripped form does not start with a `%` comment marker. -/
def passesFilter (l : String) : Bool :=
  hasSubstr "\\PieceTangram".toList l.toList &&
    !(match pyStrip l.toList with
      | '%' :: _ => true
      | _ => false)

/-- `_parse_tex` on the list of raw input lines (the file read and
`splitlines` are I/O and are modelled by taking the line list as input). -/
def parseTex (lines : List String) : Except ParseError (List Piece) :=
  processLines (lines.filter passesFilter) 0 []

/-- Number of filtered lines on which the directive regex matches: the
final value of `piece_index` when no per-line error interrupts the loop. -/
def matchedCount (lines : List String) : Nat :=
  (lines.filter passesFilter).countP fun l => (matchSearch (despace l)).isSome

/-- A line is well formed when, if the regex matches it at all, its option
group parses without a `ValueError` and both anchor fields are integers. -/
def lineWF (l : String) : Bool :=
  match matchSearch (despace l) with
  | none => true
  | some (optsStr, xs, ys, _ty) =>
    (match parseOptions optsStr with
     | .ok _ => true
     | .error _ => false) &&
    (pyInt xs).isSome && (pyInt ys).isSome

/-! ### Geometry: the vertex resolver and the emitter bounding box -/

noncomputable section

/-- A 2D point; the source's float pairs are modelled with exact reals. -/
abbrev Point := ℝ × ℝ

/-- Python `round(x, 5)`: rounding to the 5-decimal grid.  Mathlib's `round`
is half-up while Python's is half-even on binary floats; the two agree away
from exact half-way points, and no input considered in this file hits one. -/
def round5 (x : ℝ) : ℝ := (round (x * 100000) : ℤ) / 100000

/-- `_rotate` (lines 71-85): convert degrees to radians, apply the standard
rotation about the origin and round each coordinate to 5 decimals. -/
def rotatePt (x y degrees : ℝ) : Point :=
  let radians := degrees * Real.pi / 180
  let cosA := Real.cos radians
  let sinA := Real.sin radians
  (round5 (x * cosA - y * sinA), round5 (x * sinA + y * cosA))

/-- A placement directive as consumed by `_compute_vertices`: flip flags,
rotation in degrees and the anchor coordinates. -/
structure Directive where
  xflip : Bool
  yflip : Bool
  rotate : ℝ
  ax : ℝ
  ay : ℝ

/-- Lines 109-120, one template point: rotate, negate the rotated
coordinates under the flip flags (`x_rot *= -1`), translate by the anchor
and round each sum to 5 decimals. -/
def transformVertex (d : Directive) (p : Point) : Point :=
  let r := rotatePt p.1 p.2 d.rotate
  let xr := if d.xflip then -r.1 else r.1
  let yr := if d.yflip then -r.2 else r.2
  (round5 (xr + d.ax), round5 (yr + d.ay))

/-- The `transformed` list built by the loop of lines 108-120. -/
def computeTransformed (d : Directive) (tpl : List Point) : List Point :=
  tpl.map (transformVertex d)

/-- The sort key of line 123, `lambda p: (p[0], -p[1])`, compared the way
Python compares tuples: lexicographically. -/
def sortKey (p : Point) : ℝ ×ₗ ℝ := toLex (p.1, -p.2)

/-- Python `min(m :: l, key=sortKey)`: fold keeping the current element
unless the new one has a strictly smaller key, so the first minimum wins. -/
def pyMinFold (m : Point) (l : List Point) : Point :=
  l.foldl (fun acc p => if sortKey p < sortKey acc then p else acc) m

/-- Python `list.index`: index of the first occurrence of `p` (returns the
length when absent; the source raises there, but every call site passes a
member).  Equality of real points is decided classically. -/
def idxOf (p : Point) : List Point → Nat
  | [] => 0
  | q :: t => if q = p then 0 else idxOf p t + 1

/-- Lines 122-125: find the minimum-key point, locate its first index and
rotate the list cyclically so it comes first (`transformed[min_idx:] +
transformed[:min_idx]`).  Python's `min` raises on an empty list; the source
only ever canonicalizes nonempty template images. -/
def canonicalize (l : List Point) : List Point :=
  match l with
  | [] => []
  | h :: t =>
    let m := pyMinFold h t
    let i := idxOf m (h :: t)
    ((h :: t).drop i) ++ ((h :: t).take i)

/-- The full vertex resolution of `_compute_vertices` for one piece. -/
def resolveVertices (d : Directive) (tpl : List Point) : List Point :=
  canonicalize (computeTransformed d tpl)

/-- The shared triangle template of lines 92-96. -/
def triangleTemplate : List Point := [(0, 0), (1, 0), (0, 1)]

/-- The square template of line 97. -/
def squareTemplate : List Point := [(0, 0), (1, 0), (1, 1), (0, 1)]

/-- The parallelogram template of line 98 (1.5 and 0.5 written as exact
rationals). -/
def parallelogramTemplate : List Point := [(0, 0), (1, 0), (3 / 2, 1), (1 / 2, 1)]

/-- Follows the spec's wording of §4.2 steps 1-3: rotate by the directive's
angle about the origin with x' = x·cos θ − y·sin θ, y' = x·sin θ + y·cos θ,
θ in radians, rounding each coordinate to 5 decimal digits immediately after
rotation; then negate the rotated x under x-flip and the rotated y under
y-flip; then add the anchor and round each sum to 5 decimal digits. -/
def specTransformStep (d : Directive) (p : Point) : Point :=
  let th := d.rotate * Real.pi / 180
  let xr := round5 (p.1 * Real.cos th - p.2 * Real.sin th)
  let yr := round5 (p.1 * Real.sin th + p.2 * Real.cos th)
  let xf := if d.xflip then -xr else xr
  let yf := if d.yflip then -yr else yr
  (round5 (xf + d.ax), round5 (yf + d.ay))

/-- A resolved piece as consumed by `draw_pieces`: label and final vertex
list. -/
structure RPiece where
  name : String
  vertices : List Point

/-- `all_x` of line 133: every vertex x-coordinate of every piece. -/
def allX (ps : List RPiece) : List ℝ := ps.flatMap fun p => p.vertices.map Prod.fst

/-- `all_y` of line 134: every vertex y-coordinate of every piece. -/
def allY (ps : List RPiece) : List ℝ := ps.flatMap fun p => p.vertices.map Prod.snd

/-- Python `min` on a nonempty list of floats (raises on `[]`; modelled by
an arbitrary value there, unreachable under the hypotheses used below). -/
def pyMinR : List ℝ → ℝ
  | [] => 0
  | h :: t => t.foldl min h

/-- Python `max` on a nonempty list of floats. -/
def pyMaxR : List ℝ → ℝ
  | [] => 0
  | h :: t => t.foldl max h

/-- Lines 133-146: the grid corners `(min_x, min_y)` and `(max_x, max_y)`
written into the `\draw … grid …` command, after the padding by 2 units on
each side. -/
def gridCorners (ps : List RPiece) : (ℝ × ℝ) × (ℝ × ℝ) :=
  ((pyMinR (allX ps) - 2, pyMinR (allY ps) - 2),
   (pyMaxR (allX ps) + 2, pyMaxR (allY ps) + 2))

end

/-! ### Helper lemmas for the parser -/

theorem handleLine_of_none {l : String} (idx : Nat)
    (h : matchSearch (despace l) = none) : handleLine idx l = .ok none := by
  simp [handleLine, h]

theorem processLines_skip (as bs : List String) (l : String)
    (h : matchSearch (despace l) = none) (idx : Nat) (acc : List Piece) :
    processLines (as ++ l :: bs) idx acc = processLines (as ++ bs) idx acc := by
  induction as generalizing idx acc with
  | nil =>
    show processLines (l :: bs) idx acc = processLines bs idx acc
    simp [processLines, handleLine_of_none idx h]
  | cons a as ih =>
    show processLines (a :: (as ++ l :: bs)) idx acc
        = processLines (a :: (as ++ bs)) idx acc
    simp only [processLines]
    cases handleLine idx a with
    | error e => rfl
    | ok op =>
      cases op with
      | none => exact ih idx acc
      | some p => exact ih (idx + 1) (acc ++ [p])

theorem pieceLabels_length : pieceLabels.length = 7 := rfl

theorem handleLine_ok_name {idx : Nat} {l : String} {p : Piece}
    (h : handleLine idx l = .ok (some p)) :
    ∃ hidx : idx < pieceLabels.length, p.name = pieceLabels.get ⟨idx, hidx⟩ := by
  unfold handleLine at h
  split at h
  · simp at h
  · split at h
    · simp at h
    · split at h
      · split at h
        · simp at h
        · split at h
          · simp at h
          · rename_i hidx _ _ _ _ _ _
            simp only [Except.ok.injEq, Option.some.injEq] at h
            exact ⟨hidx, by rw [← h]⟩
      · simp at h

theorem handleLine_wf_some {l : String} {idx : Nat} (hwf : lineWF l = true)
    (hm : (matchSearch (despace l)).isSome = true) :
    (idx < 7 → ∃ p, handleLine idx l = .ok (some p)) ∧
    (7 ≤ idx → handleLine idx l = .error .indexError) := by
  obtain ⟨g, hg⟩ := Option.isSome_iff_exists.mp hm
  obtain ⟨optsStr, xs, ys, ty⟩ := g
  unfold lineWF at hwf
  rw [hg] at hwf
  simp only [Bool.and_eq_true] at hwf
  obtain ⟨⟨hopt, hx⟩, hy⟩ := hwf
  unfold handleLine
  rw [hg]
  cases hpo : parseOptions optsStr with
  | error e => rw [hpo] at hopt; simp at hopt
  | ok tf =>
    cases hpx : pyInt xs with
    | none => rw [hpx] at hx; simp at hx
    | some x =>
      cases hpy : pyInt ys with
      | none => rw [hpy] at hy; simp at hy
      | some y =>
        constructor
        · intro hlt
          have hidx : idx < pieceLabels.length := by rw [pieceLabels_length]; exact hlt
          exact ⟨⟨pieceLabels.get ⟨idx, hidx⟩, x, y, tf⟩, by simp [hpo, hpx, hpy, dif_pos hidx]⟩
        · intro hge
          have hidx : ¬ idx < pieceLabels.length := by rw [pieceLabels_length]; omega
          simp [hpo, hpx, hpy, dif_neg hidx]

theorem processLines_wf (ls : List String) (hwf : ∀ l ∈ ls, lineWF l = true)
    (idx : Nat) (acc : List Piece) (hidx : idx ≤ 7) :
    (idx + ls.countP (fun l => (matchSearch (despace l)).isSome) < 7 →
      processLines ls idx acc =
        .error (.assertCount (idx + ls.countP (fun l => (matchSearch (despace l)).isSome)))) ∧
    (idx + ls.countP (fun l => (matchSearch (despace l)).isSome) = 7 →
      ∃ ps, processLines ls idx acc = .ok ps) ∧
    (7 < idx + ls.countP (fun l => (matchSearch (despace l)).isSome) →
      0 < ls.countP (fun l => (matchSearch (despace l)).isSome) →
      processLines ls idx acc = .error .indexError) := by
  induction ls generalizing idx acc with
  | nil =>
    simp only [List.countP_nil, Nat.add_zero]
    refine ⟨fun h => ?_, fun h => ?_, fun h h0 => by omega⟩
    · have hne : idx ≠ 7 := by omega
      simp [processLines, hne]
    · exact ⟨acc, by simp [processLines, h]⟩
  | cons l ls ih =>
    have hwl : lineWF l = true := hwf l (by simp)
    have hwls : ∀ x ∈ ls, lineWF x = true := fun x hx => hwf x (by simp [hx])
    cases hm : matchSearch (despace l) with
    | none =>
      have hcount : (l :: ls).countP (fun s => (matchSearch (despace s)).isSome)
          = ls.countP (fun s => (matchSearch (despace s)).isSome) := by
        simp [List.countP_cons, hm]
      rw [hcount]
      have hstep : processLines (l :: ls) idx acc = processLines ls idx acc := by
        simp [processLines, handleLine_of_none idx hm]
      rw [hstep]
      exact ih hwls idx acc hidx
    | some g =>
      have hms : (matchSearch (despace l)).isSome = true := by simp [hm]
      have hcount : (l :: ls).countP (fun s => (matchSearch (despace s)).isSome)
          = ls.countP (fun s => (matchSearch (despace s)).isSome) + 1 := by
        simp [List.countP_cons, hm]
      rw [hcount]
      by_cases hlt : idx < 7
      · obtain ⟨p, hp⟩ := (handleLine_wf_some hwl hms).1 hlt
        have hstep : processLines (l :: ls) idx acc
            = processLines ls (idx + 1) (acc ++ [p]) := by
          simp [processLines, hp]
        rw [hstep]
        have hrec := ih hwls (idx + 1) (acc ++ [p]) (by omega)
        refine ⟨fun h => ?_, fun h => ?_, fun h h0 => ?_⟩
        · have harith : idx + (ls.countP (fun s => (matchSearch (despace s)).isSome) + 1)
              = (idx + 1) + ls.countP (fun s => (matchSearch (despace s)).isSome) := by omega
          rw [harith]
          exact hrec.1 (by omega)
        · exact hrec.2.1 (by omega)
        · exact hrec.2.2 (by omega) (by omega)
      · have h7 : idx = 7 := by omega
        have hge : handleLine idx l = .error .indexError :=
          (handleLine_wf_some hwl hms).2 (by omega)
        have hstep : processLines (l :: ls) idx acc = .error .indexError := by
          simp [processLines, hge]
        refine ⟨fun h => by omega, fun h => by omega, fun h h0 => hstep⟩

theorem processLines_ok_names (ls : List String) (idx : Nat) (acc ps : List Piece)
    (h : processLines ls idx acc = .ok ps) :
    ∃ new, ps = acc ++ new ∧ idx + new.length = 7 ∧
      new.map Piece.name = (pieceLabels.drop idx).take new.length := by
  induction ls generalizing idx acc with
  | nil =>
    by_cases h7 : idx = 7
    · have hacc : acc = ps := by
        have : Except.ok (ε := ParseError) acc = Except.ok ps := by
          rw [← h]; simp [processLines, h7]
        simpa using this
      exact ⟨[], by simp [hacc], by simp [h7], by simp⟩
    · simp [processLines, h7] at h
  | cons l ls ih =>
    cases hh : handleLine idx l with
    | error e =>
      rw [show processLines (l :: ls) idx acc = .error e by simp [processLines, hh]] at h
      simp at h
    | ok op =>
      cases op with
      | none =>
        rw [show processLines (l :: ls) idx acc = processLines ls idx acc by
          simp [processLines, hh]] at h
        exact ih idx acc h
      | some p =>
        rw [show processLines (l :: ls) idx acc = processLines ls (idx + 1) (acc ++ [p]) by
          simp [processLines, hh]] at h
        obtain ⟨new, hps, hlen, hnames⟩ := ih (idx + 1) (acc ++ [p]) h
        obtain ⟨hidxlen, hname⟩ := handleLine_ok_name hh
        refine ⟨p :: new, by simp [hps], by simp; omega, ?_⟩
        have hdrop : pieceLabels.drop idx
            = pieceLabels.get ⟨idx, hidxlen⟩ :: pieceLabels.drop (idx + 1) := by
          rw [List.drop_eq_getElem_cons hidxlen]
          rfl
        rw [hdrop]
        simp only [List.map_cons, List.length_cons, List.take_succ_cons]
        rw [hname, hnames]

/-! ### Claims C3, C4, C5 -/

/-- C3 (amended): on an input all of whose lines are well formed, a matched
count below 7 fails fatally with the assertion error reporting the found
count; a count of exactly 7 succeeds with no error; a count above 7 fails
fatally, but with the `IndexError` of `piece_labels[piece_index]` (line 54),
which carries no expected-vs-found message, not with the count assertion. -/
theorem c3_count_gate (lines : List String) (hwf : ∀ l ∈ lines, lineWF l = true) :
    (matchedCount lines < 7 →
      parseTex lines = .error (.assertCount (matchedCount lines))) ∧
    (matchedCount lines = 7 → ∃ ps, parseTex lines = .ok ps) ∧
    (7 < matchedCount lines → parseTex lines = .error .indexError) := by
  have hwf' : ∀ l ∈ lines.filter passesFilter, lineWF l = true := fun l hl =>
    hwf l (List.mem_of_mem_filter hl)
  have h := processLines_wf (lines.filter passesFilter) hwf' 0 [] (by omega)
  simp only [Nat.zero_add] at h
  refine ⟨h.1, h.2.1, fun hgt => h.2.2 hgt ?_⟩
  have hgt' : 7 < (lines.filter passesFilter).countP
      (fun l => (matchSearch (despace l)).isSome) := hgt
  omega

/-- C3 counterexample: an input with 8 matching directive lines does fail,
but with the `IndexError` raised while assigning the eighth label, which is
not the count-mismatch assertion and carries no expected-vs-found message —
contradicting the claim that every non-7 count is reported through the
expected-vs-found message. -/
theorem c3_count_gate_cex :
    parseTex (List.replicate 8 "\\PieceTangram[TangSol](0,0){TangSq}")
      = .error .indexError ∧
    matchedCount (List.replicate 8 "\\PieceTangram[TangSol](0,0){TangSq}") = 8 ∧
    ∀ n, ParseError.indexError ≠ ParseError.assertCount n :=
  ⟨by decide, by decide, fun _ h => ParseError.noConfusion h⟩

/-- C3 witness: `c3_count_gate` applied to a concrete well-formed input with
6 matching lines. -/
theorem c3_count_gate_witness :
    (∀ l ∈ List.replicate 6 "\\PieceTangram[TangSol](0,0){TangSq}", lineWF l = true) ∧
    ((matchedCount (List.replicate 6 "\\PieceTangram[TangSol](0,0){TangSq}") < 7 →
      parseTex (List.replicate 6 "\\PieceTangram[TangSol](0,0){TangSq}")
        = .error (.assertCount
            (matchedCount (List.replicate 6 "\\PieceTangram[TangSol](0,0){TangSq}")))) ∧
    (matchedCount (List.replicate 6 "\\PieceTangram[TangSol](0,0){TangSq}") = 7 →
      ∃ ps, parseTex (List.replicate 6 "\\PieceTangram[TangSol](0,0){TangSq}") = .ok ps) ∧
    (7 < matchedCount (List.replicate 6 "\\PieceTangram[TangSol](0,0){TangSq}") →
      parseTex (List.replicate 6 "\\PieceTangram[TangSol](0,0){TangSq}")
        = .error .indexError)) :=
  ⟨by decide, c3_count_gate _ (by decide)⟩

/-- C4 (amended): an input line on which the directive regex finds no match
(or which the `\PieceTangram`-substring / comment filter already drops) is
silently skipped: it does not abort parsing of the remaining lines and does
not count toward the required 7.  (A line that the regex does match but
whose anchor fields are not integers is not skipped: it aborts parsing with
a `ValueError`; see the counterexample.) -/
theorem c4_unmatched_skipped (pre post : List String) (l : String)
    (hl : passesFilter l = false ∨ matchSearch (despace l) = none) :
    parseTex (pre ++ l :: post) = parseTex (pre ++ post) ∧
    matchedCount (pre ++ l :: post) = matchedCount (pre ++ post) := by
  by_cases hf : passesFilter l = true
  · have hm : matchSearch (despace l) = none := by
      cases hl with
      | inl h => rw [h] at hf; cases hf
      | inr h => exact h
    have hfilter : (pre ++ l :: post).filter passesFilter
        = pre.filter passesFilter ++ l :: post.filter passesFilter := by
      simp [List.filter_append, List.filter_cons, hf]
    have hfilter2 : (pre ++ post).filter passesFilter
        = pre.filter passesFilter ++ post.filter passesFilter := by
      simp [List.filter_append]
    constructor
    · unfold parseTex
      rw [hfilter, hfilter2, processLines_skip _ _ _ hm]
    · unfold matchedCount
      rw [hfilter, hfilter2]
      simp [List.countP_append, List.countP_cons, hm]
  · have hf' : passesFilter l = false := by simpa using hf
    have hfilter : (pre ++ l :: post).filter passesFilter
        = (pre ++ post).filter passesFilter := by
      simp [List.filter_append, List.filter_cons, hf']
    constructor
    · unfold parseTex; rw [hfilter]
    · unfold matchedCount; rw [hfilter]

/-- C4 counterexample: a line that matches the regex but whose anchor X is
the non-integer `a` is not silently skipped — `int("a")` aborts the whole
parse with a `ValueError`, even though 7 other valid lines are present (so
the claim would demand a successful 7-piece parse). -/
theorem c4_unmatched_skipped_cex :
    parseTex ("\\PieceTangram[TangSol](0,0){TangSq}"
        :: "\\PieceTangram[TangSol](a,0){TangSq}"
        :: List.replicate 6 "\\PieceTangram[TangSol](0,0){TangSq}")
      = .error (.valueError "a") := by decide

/-- C4 witness: `c4_unmatched_skipped` applied to a concrete line that the
regex does not match (no braced type tag), between two valid lines. -/
theorem c4_unmatched_skipped_witness :
    (passesFilter "\\PieceTangram[TangSol](2,3)" = false ∨
      matchSearch (despace "\\PieceTangram[TangSol](2,3)") = none) ∧
    (parseTex (["\\PieceTangram[TangSol](0,0){TangSq}"]
        ++ "\\PieceTangram[TangSol](2,3)" :: ["\\PieceTangram[TangSol](1,1){TangSq}"])
      = parseTex (["\\PieceTangram[TangSol](0,0){TangSq}"]
        ++ ["\\PieceTangram[TangSol](1,1){TangSq}"]) ∧
    matchedCount (["\\PieceTangram[TangSol](0,0){TangSq}"]
        ++ "\\PieceTangram[TangSol](2,3)" :: ["\\PieceTangram[TangSol](1,1){TangSq}"])
      = matchedCount (["\\PieceTangram[TangSol](0,0){TangSq}"]
        ++ ["\\PieceTangram[TangSol](1,1){TangSq}"])) :=
  ⟨Or.inr (by decide), c4_unmatched_skipped _ _ _ (Or.inr (by decide))⟩

/-- C5 (confirmed): whenever parsing succeeds, the pieces carry, in file
order, exactly the names of the fixed label list — the Nth matching line
gets the Nth label, whatever TYPE tag the line itself carries (the theorem
quantifies over all inputs, hence over all TYPE tags). -/
theorem c5_positional_labels (lines : List String) (ps : List Piece)
    (h : parseTex lines = .ok ps) : ps.map Piece.name = pieceLabels := by
  obtain ⟨new, hps, hlen, hnames⟩ := processLines_ok_names _ 0 [] ps h
  simp only [List.nil_append] at hps
  rw [hps, hnames]
  have h7 : new.length = 7 := by omega
  rw [h7]
  rfl

/-- C5 witness: `c5_positional_labels` applied to a concrete 7-line input
whose TYPE tags are all `TangSq`; the labels still come out positionally. -/
theorem c5_positional_labels_witness :
    parseTex (List.replicate 7 "\\PieceTangram[TangSol](0,0){TangSq}")
      = .ok (pieceLabels.map fun nm => ⟨nm, 0, 0, initTransform⟩) ∧
    ((pieceLabels.map fun nm => (⟨nm, 0, 0, initTransform⟩ : Piece)).map Piece.name
      = pieceLabels) :=
  ⟨by decide,
    c5_positional_labels (List.replicate 7 "\\PieceTangram[TangSol](0,0){TangSq}")
      (pieceLabels.map fun nm => ⟨nm, 0, 0, initTransform⟩) (by decide)⟩

/-! ### Claims C8 and C10: option parsing -/

theorem isPrefixOf_append_self (a b : List Char) : a.isPrefixOf (a ++ b) = true := by
  induction a with
  | nil => simp [List.isPrefixOf]
  | cons x xs ih => simp [List.isPrefixOf, ih]

theorem splitOnChar_of_not_mem {c : Char} {b : List Char} (h : c ∉ b) :
    splitOnChar c b = [b] := by
  induction b with
  | nil => rfl
  | cons x xs ih =>
    have hx : ¬ x = c := fun he => h (by simp [he])
    have hxs : c ∉ xs := fun he => h (by simp [he])
    rw [splitOnChar, if_neg hx, ih hxs]

theorem splitOnChar_sandwich {c : Char} {a : List Char} (b : List Char) (h : c ∉ a) :
    splitOnChar c (a ++ c :: b) = a :: splitOnChar c b := by
  induction a with
  | nil => simp [splitOnChar]
  | cons x xs ih =>
    have hx : ¬ x = c := fun he => h (by simp [he])
    have hxs : c ∉ xs := fun he => h (by simp [he])
    show splitOnChar c (x :: (xs ++ c :: b)) = (x :: xs) :: splitOnChar c b
    rw [splitOnChar, if_neg hx, ih hxs]

/-- Core of claims C8 and C10: one pass of the option loop on the token
`rotate=` followed by an integer literal sets the rotation to that integer
modulo 360 (leaving the flips untouched). -/
theorem applyOpt_rotate_eq (tf : Transform) (cs : List Char) (n : Int)
    (hn : pyInt cs = some n) (hne : '=' ∉ cs) :
    applyOpt tf ("rotate=".toList ++ cs) = .ok { tf with rotate := Int.emod n 360 } := by
  have h1 : ¬("rotate=".toList ++ cs = "xscale=-1".toList) := by
    intro h
    have := congrArg (fun l => l.headD ' ') h
    simp at this
  have h2 : ¬("rotate=".toList ++ cs = "yscale=-1".toList) := by
    intro h
    have := congrArg (fun l => l.headD ' ') h
    simp at this
  have h3 : "rotate=".toList.isPrefixOf ("rotate=".toList ++ cs) = true :=
    isPrefixOf_append_self _ _
  have hsplit : ((splitOnChar '=' ("rotate=".toList ++ cs)).drop 1).headD [] = cs := by
    have hr : "rotate=".toList ++ cs = "rotate".toList ++ '=' :: cs := by
      have he : "rotate=".toList = "rotate".toList ++ ['='] := by decide
      rw [he, List.append_assoc]
      rfl
    rw [hr, splitOnChar_sandwich cs (by decide), splitOnChar_of_not_mem hne]
    rfl
  unfold applyOpt
  rw [if_neg h1, if_neg h2, if_pos h3]
  simp only [hsplit, hn]

/-- A non-`rotate=` option token never fails and never changes the parsed
rotation. -/
theorem applyOpt_no_rot {o : List Char} (tf : Transform)
    (ho : ¬("rotate=".toList.isPrefixOf o = true)) :
    ∃ tf', applyOpt tf o = .ok tf' ∧ tf'.rotate = tf.rotate := by
  unfold applyOpt
  by_cases h1 : o = "xscale=-1".toList
  · exact ⟨{ tf with xflip := true }, by rw [if_pos h1], rfl⟩
  · by_cases h2 : o = "yscale=-1".toList
    · exact ⟨{ tf with yflip := true }, by rw [if_neg h1, if_pos h2], rfl⟩
    · exact ⟨tf, by rw [if_neg h1, if_neg h2, if_neg ho], rfl⟩

/-- The option loop over tokens without a `rotate=` key never fails and
never changes the parsed rotation. -/
theorem foldOpts_no_rot (os : List (List Char)) (tf : Transform)
    (hos : ∀ o ∈ os, ¬("rotate=".toList.isPrefixOf o = true)) :
    ∃ tf', foldOpts tf os = .ok tf' ∧ tf'.rotate = tf.rotate := by
  induction os generalizing tf with
  | nil => exact ⟨tf, rfl, rfl⟩
  | cons o os ih =>
    obtain ⟨tf1, h1, hr1⟩ := applyOpt_no_rot tf (hos o (by simp))
    obtain ⟨tf2, h2, hr2⟩ := ih tf1 fun x hx => hos x (by simp [hx])
    exact ⟨tf2, by rw [foldOpts, h1]; exact h2, by rw [hr2, hr1]⟩

/-- The option loop over an append runs the first part first. -/
theorem foldOpts_append_ok {tf tf1 : Transform} {as : List (List Char)}
    (bs : List (List Char)) (h : foldOpts tf as = .ok tf1) :
    foldOpts tf (as ++ bs) = foldOpts tf1 bs := by
  induction as generalizing tf with
  | nil =>
    have : tf = tf1 := by simpa [foldOpts] using h
    rw [this]
    rfl
  | cons a as ih =>
    rw [foldOpts] at h
    show foldOpts tf (a :: (as ++ bs)) = foldOpts tf1 bs
    rw [foldOpts]
    cases ha : applyOpt tf a with
    | error e => rw [ha] at h; cases h
    | ok tfa => rw [ha] at h; exact ih h

/-- C8 (confirmed): the option token `rotate=` followed by any integer
literal (any string `int` accepts, in particular any negative integer)
parses to the rotation value n mod 360, which lies in the interval
[0, 360).  (An integer literal never contains the character `=`, hence the
second hypothesis.) -/
theorem c8_rotate_mod (tf : Transform) (cs : List Char) (n : Int)
    (hn : pyInt cs = some n) (hne : '=' ∉ cs) :
    applyOpt tf ("rotate=".toList ++ cs) = .ok { tf with rotate := Int.emod n 360 } ∧
    0 ≤ Int.emod n 360 ∧ Int.emod n 360 < 360 :=
  ⟨applyOpt_rotate_eq tf cs n hn hne,
    Int.emod_nonneg n (by decide), Int.emod_lt_of_pos n (by decide)⟩

/-- C8 witness: `c8_rotate_mod` on the concrete token `rotate=-30`, which
parses to rotation 330. -/
theorem c8_rotate_mod_witness :
    pyInt "-30".toList = some (-30) ∧ '=' ∉ "-30".toList ∧
    (applyOpt initTransform ("rotate=".toList ++ "-30".toList)
        = .ok { initTransform with rotate := Int.emod (-30) 360 } ∧
      0 ≤ Int.emod (-30) 360 ∧ Int.emod (-30) 360 < 360) :=
  ⟨by decide, by decide, c8_rotate_mod initTransform "-30".toList (-30) (by decide) (by decide)⟩

/-- C10 (confirmed): when the option list contains several `rotate=` keys,
the parsed rotation is the value of the last occurrence modulo 360: any
successfully parsed earlier options are overwritten by it, and option
tokens after it that carry no `rotate=` key leave the rotation unchanged. -/
theorem c10_last_rotate_wins (tf0 tf1 : Transform) (pre post : List (List Char))
    (cs : List Char) (n : Int)
    (hpre : foldOpts tf0 pre = .ok tf1)
    (hn : pyInt cs = some n) (hne : '=' ∉ cs)
    (hpost : ∀ o ∈ post, ¬("rotate=".toList.isPrefixOf o = true)) :
    ∃ tf2, foldOpts tf0 (pre ++ ("rotate=".toList ++ cs) :: post) = .ok tf2 ∧
      tf2.rotate = Int.emod n 360 := by
  rw [foldOpts_append_ok _ hpre]
  rw [foldOpts, applyOpt_rotate_eq tf1 cs n hn hne]
  obtain ⟨tf2, h2, hr2⟩ := foldOpts_no_rot post { tf1 with rotate := Int.emod n 360 } hpost
  exact ⟨tf2, h2, hr2⟩

/-- C10 witness: `c10_last_rotate_wins` on the concrete option list
`rotate=90, rotate=-30, xscale=-1`: the parsed rotation is 330, from the
last `rotate=` key. -/
theorem c10_last_rotate_wins_witness :
    foldOpts initTransform ["rotate=90".toList] = .ok ⟨false, false, 90⟩ ∧
    pyInt "-30".toList = some (-30) ∧ '=' ∉ "-30".toList ∧
    (∀ o ∈ ["xscale=-1".toList], ¬("rotate=".toList.isPrefixOf o = true)) ∧
    ∃ tf2, foldOpts initTransform
        (["rotate=90".toList] ++ ("rotate=".toList ++ "-30".toList) :: ["xscale=-1".toList])
      = .ok tf2 ∧ tf2.rotate = Int.emod (-30) 360 :=
  ⟨by decide, by decide, by decide, by decide,
    c10_last_rotate_wins initTransform ⟨false, false, 90⟩ _ _ _ _
      (by decide) (by decide) (by decide) (by decide)⟩

/-! ### Claims C1 and C2: the transform pipeline and the canonical start -/

/-- C1 (confirmed): for every directive and every template point, the
resolver computes exactly what the spec describes: rotate with
x' = x·cos θ − y·sin θ, y' = x·sin θ + y·cos θ and round each coordinate to
5 decimals immediately; then negate rotated x under x-flip and rotated y
under y-flip (after rotation, not before); then add the anchor and round
each sum to 5 decimals. -/
theorem c1_transform_pipeline (d : Directive) (tpl : List Point) :
    computeTransformed d tpl = tpl.map (specTransformStep d) :=
  rfl

theorem pyMinFold_mem (m : Point) (l : List Point) : pyMinFold m l ∈ m :: l := by
  induction l generalizing m with
  | nil => simp [pyMinFold]
  | cons p t ih =>
    have hred : pyMinFold m (p :: t)
        = pyMinFold (if sortKey p < sortKey m then p else m) t := rfl
    rw [hred]
    have h := ih (if sortKey p < sortKey m then p else m)
    rcases List.mem_cons.mp h with h1 | h2
    · rw [h1]
      by_cases hc : sortKey p < sortKey m
      · simp [hc]
      · simp [hc]
    · simp [h2]

theorem pyMinFold_min (m : Point) (l : List Point) :
    ∀ q ∈ m :: l, sortKey (pyMinFold m l) ≤ sortKey q := by
  induction l generalizing m with
  | nil =>
    intro q hq
    have : q = m := by simpa using hq
    simp [pyMinFold, this]
  | cons p t ih =>
    intro q hq
    have hred : pyMinFold m (p :: t)
        = pyMinFold (if sortKey p < sortKey m then p else m) t := rfl
    rw [hred]
    have hacc : sortKey (pyMinFold (if sortKey p < sortKey m then p else m) t)
        ≤ sortKey (if sortKey p < sortKey m then p else m) :=
      ih _ _ (List.mem_cons_self _ _)
    rcases List.mem_cons.mp hq with hqm | hq'
    · rw [hqm]
      by_cases hc : sortKey p < sortKey m
      · rw [if_pos hc] at hacc ⊢
        exact hacc.trans hc.le
      · rw [if_neg hc] at hacc ⊢
        exact hacc
    · rcases List.mem_cons.mp hq' with hqp | hqt
      · rw [hqp]
        by_cases hc : sortKey p < sortKey m
        · rw [if_pos hc] at hacc ⊢
          exact hacc
        · rw [if_neg hc] at hacc ⊢
          exact hacc.trans (le_of_not_lt hc)
      · exact ih _ _ (List.mem_cons_of_mem _ hqt)

theorem idxOf_lt_length {p : Point} {l : List Point} (h : p ∈ l) :
    idxOf p l < l.length := by
  induction l with
  | nil => cases h
  | cons q t ih =>
    rw [idxOf]
    by_cases hq : q = p
    · rw [if_pos hq]
      simp
    · rw [if_neg hq]
      have hp : p ∈ t := by
        rcases List.mem_cons.mp h with h1 | h2
        · exact absurd h1.symm hq
        · exact h2
      simpa using ih hp

theorem getElem?_idxOf {p : Point} {l : List Point} (h : p ∈ l) :
    l[idxOf p l]? = some p := by
  induction l with
  | nil => cases h
  | cons q t ih =>
    rw [idxOf]
    by_cases hq : q = p
    · rw [if_pos hq]
      simp [hq]
    · rw [if_neg hq]
      have hp : p ∈ t := by
        rcases List.mem_cons.mp h with h1 | h2
        · exact absurd h1.symm hq
        · exact h2
      simpa using ih hp

theorem canonicalize_spec (hd : Point) (tl : List Point) :
    ∃ k, k < (hd :: tl).length ∧
      canonicalize (hd :: tl) = (hd :: tl).drop k ++ (hd :: tl).take k ∧
      (canonicalize (hd :: tl)).headI = pyMinFold hd tl := by
  have hm : pyMinFold hd tl ∈ hd :: tl := pyMinFold_mem hd tl
  have hk : idxOf (pyMinFold hd tl) (hd :: tl) < (hd :: tl).length := idxOf_lt_length hm
  refine ⟨idxOf (pyMinFold hd tl) (hd :: tl), hk, rfl, ?_⟩
  have hdrop : (hd :: tl).drop (idxOf (pyMinFold hd tl) (hd :: tl))
      = (hd :: tl)[idxOf (pyMinFold hd tl) (hd :: tl)]
        :: (hd :: tl).drop (idxOf (pyMinFold hd tl) (hd :: tl) + 1) :=
    List.drop_eq_getElem_cons hk
  have hget : (hd :: tl)[idxOf (pyMinFold hd tl) (hd :: tl)] = pyMinFold hd tl := by
    have h1 := getElem?_idxOf hm
    rw [List.getElem?_eq_getElem hk] at h1
    exact Option.some_injective _ h1
  show ((hd :: tl).drop (idxOf (pyMinFold hd tl) (hd :: tl))
      ++ (hd :: tl).take (idxOf (pyMinFold hd tl) (hd :: tl))).headI = pyMinFold hd tl
  rw [hdrop, List.cons_append, hget]
  rfl

/-- C2 (confirmed): the final vertex list of a resolved piece is a cyclic
rotation of the transformed template list (no other reordering), and its
first vertex attains the minimum x over all vertices, with maximum y among
the vertices sharing that minimum x. -/
theorem c2_canonical_start (d : Directive) (tpl : List Point) (h : tpl ≠ []) :
    (∃ k, k < (computeTransformed d tpl).length ∧
      resolveVertices d tpl
        = (computeTransformed d tpl).drop k ++ (computeTransformed d tpl).take k) ∧
    ∀ q ∈ resolveVertices d tpl,
      (resolveVertices d tpl).headI.1 ≤ q.1 ∧
      (q.1 = (resolveVertices d tpl).headI.1 → q.2 ≤ (resolveVertices d tpl).headI.2) := by
  obtain ⟨hd, tl, htr⟩ : ∃ hd tl, computeTransformed d tpl = hd :: tl := by
    cases htpl : tpl with
    | nil => exact absurd htpl h
    | cons a t =>
      exact ⟨transformVertex d a, t.map (transformVertex d), rfl⟩
  obtain ⟨k, hk, hcan, hhead⟩ := canonicalize_spec hd tl
  have hres : resolveVertices d tpl = canonicalize (hd :: tl) := by
    unfold resolveVertices
    rw [htr]
  constructor
  · exact ⟨k, by rw [htr]; exact hk, by rw [hres, htr]; exact hcan⟩
  · intro q hq
    have hqmem : q ∈ hd :: tl := by
      rw [hres, hcan] at hq
      rcases List.mem_append.mp hq with h1 | h2
      · exact List.drop_subset _ _ h1
      · exact List.take_subset _ _ h2
    have hmin := pyMinFold_min hd tl q hqmem
    have hh : (resolveVertices d tpl).headI = pyMinFold hd tl := by
      rw [hres, hhead]
    rw [hh]
    rw [sortKey, sortKey] at hmin
    rcases (Prod.Lex.le_iff _ _).mp hmin with h1 | ⟨h1, h2⟩
    · exact ⟨h1.le, fun he => ((lt_irrefl _ (he ▸ h1)).elim)⟩
    · exact ⟨h1.le, fun _ => by simpa using h2⟩

/-- C2 witness: `c2_canonical_start` at the identity directive on the
one-point template `[(2, 3)]`. -/
theorem c2_canonical_start_witness :
    (([((2 : ℝ), (3 : ℝ))] : List Point) ≠ []) ∧
    ((∃ k, k < (computeTransformed ⟨false, false, 0, 0, 0⟩ [((2 : ℝ), (3 : ℝ))]).length ∧
      resolveVertices ⟨false, false, 0, 0, 0⟩ [((2 : ℝ), (3 : ℝ))]
        = (computeTransformed ⟨false, false, 0, 0, 0⟩ [((2 : ℝ), (3 : ℝ))]).drop k
          ++ (computeTransformed ⟨false, false, 0, 0, 0⟩ [((2 : ℝ), (3 : ℝ))]).take k) ∧
    ∀ q ∈ resolveVertices ⟨false, false, 0, 0, 0⟩ [((2 : ℝ), (3 : ℝ))],
      (resolveVertices ⟨false, false, 0, 0, 0⟩ [((2 : ℝ), (3 : ℝ))]).headI.1 ≤ q.1 ∧
      (q.1 = (resolveVertices ⟨false, false, 0, 0, 0⟩ [((2 : ℝ), (3 : ℝ))]).headI.1 →
        q.2 ≤ (resolveVertices ⟨false, false, 0, 0, 0⟩ [((2 : ℝ), (3 : ℝ))]).headI.2)) :=
  ⟨by simp, c2_canonical_start ⟨false, false, 0, 0, 0⟩ [((2 : ℝ), (3 : ℝ))] (by simp)⟩

/-! ### Claim C7: the concrete flipped-square scenario -/

theorem round5_intCast (n : ℤ) : round5 ((n : ℝ)) = (n : ℝ) := by
  unfold round5
  rw [show ((n : ℝ)) * 100000 = ((n * 100000 : ℤ) : ℝ) by push_cast; ring, round_intCast]
  push_cast
  rw [mul_div_assoc]
  norm_num

theorem round5_zero : round5 0 = 0 := by simpa using round5_intCast 0

theorem round5_one : round5 1 = 1 := by simpa using round5_intCast 1

theorem round5_neg_one : round5 (-1) = -1 := by simpa using round5_intCast (-1)

theorem transformVertex_sqDir (x y : ℝ) :
    transformVertex ⟨true, false, 0, 0, 0⟩ (x, y)
      = (round5 (-(round5 x)), round5 (round5 y)) := by
  unfold transformVertex rotatePt
  norm_num [Real.cos_zero, Real.sin_zero]

/-- C7 (confirmed): resolving the square template under x-flip with zero
rotation and zero anchor yields the transformed list
[(0,0), (−1,0), (−1,1), (0,1)], and the canonical first vertex is (−1,1):
of the two points with minimal x = −1 the one with maximal y. -/
theorem c7_square_xflip :
    computeTransformed ⟨true, false, 0, 0, 0⟩ squareTemplate
      = [(0, 0), (-1, 0), (-1, 1), (0, 1)] ∧
    resolveVertices ⟨true, false, 0, 0, 0⟩ squareTemplate
      = [(-1, 1), (0, 1), (0, 0), (-1, 0)] := by
  have htr : computeTransformed ⟨true, false, 0, 0, 0⟩ squareTemplate
      = [((0 : ℝ), (0 : ℝ)), (-1, 0), (-1, 1), (0, 1)] := by
    unfold computeTransformed squareTemplate
    simp only [List.map_cons, List.map_nil, transformVertex_sqDir, round5_zero,
      round5_one, neg_zero, round5_neg_one]
  have k1 : sortKey ((-1 : ℝ), (0 : ℝ)) < sortKey ((0 : ℝ), (0 : ℝ)) := by
    rw [sortKey, sortKey]
    refine (Prod.Lex.lt_iff _ _).mpr (Or.inl ?_)
    norm_num
  have k2 : sortKey ((-1 : ℝ), (1 : ℝ)) < sortKey ((-1 : ℝ), (0 : ℝ)) := by
    rw [sortKey, sortKey]
    refine (Prod.Lex.lt_iff _ _).mpr (Or.inr ⟨rfl, ?_⟩)
    norm_num
  have k3 : ¬ sortKey ((0 : ℝ), (1 : ℝ)) < sortKey ((-1 : ℝ), (1 : ℝ)) := by
    rw [sortKey, sortKey, Prod.Lex.lt_iff]
    norm_num
  have hmin : pyMinFold ((0 : ℝ), (0 : ℝ)) [((-1 : ℝ), (0 : ℝ)), ((-1 : ℝ), (1 : ℝ)), ((0 : ℝ), (1 : ℝ))]
      = ((-1 : ℝ), (1 : ℝ)) := by
    unfold pyMinFold
    rw [List.foldl_cons, if_pos k1, List.foldl_cons, if_pos k2, List.foldl_cons,
      if_neg k3, List.foldl_nil]
  have e1 : ¬ (((0 : ℝ), (0 : ℝ)) = ((-1 : ℝ), (1 : ℝ))) := by
    simp only [Prod.mk.injEq]
    norm_num
  have e2 : ¬ (((-1 : ℝ), (0 : ℝ)) = ((-1 : ℝ), (1 : ℝ))) := by
    simp only [Prod.mk.injEq]
    norm_num
  have hidx : idxOf ((-1 : ℝ), (1 : ℝ))
      [((0 : ℝ), (0 : ℝ)), ((-1 : ℝ), (0 : ℝ)), ((-1 : ℝ), (1 : ℝ)), ((0 : ℝ), (1 : ℝ))] = 2 := by
    rw [idxOf, if_neg e1, idxOf, if_neg e2, idxOf, if_pos rfl]
  have hcan : canonicalize [((0 : ℝ), (0 : ℝ)), (-1, 0), (-1, 1), (0, 1)]
      = [(-1, 1), (0, 1), (0, 0), (-1, 0)] := by
    simp only [canonicalize]
    rw [hmin, hidx]
    rfl
  refine ⟨htr, ?_⟩
  unfold resolveVertices
  rw [htr, hcan]

/-! ### Claim C9: the emitter grid bounds -/

theorem foldlMin_mem (h : ℝ) (t : List ℝ) : t.foldl min h ∈ h :: t := by
  induction t generalizing h with
  | nil => simp
  | cons x xs ih =>
    have hred : (x :: xs).foldl min h = xs.foldl min (min h x) := rfl
    rw [hred]
    rcases List.mem_cons.mp (ih (min h x)) with h1 | h2
    · rcases min_choice h x with hm | hm
      · rw [h1, hm]
        simp
      · rw [h1, hm]
        simp
    · simp [h2]

theorem foldlMin_le (h : ℝ) (t : List ℝ) : ∀ x ∈ h :: t, t.foldl min h ≤ x := by
  induction t generalizing h with
  | nil =>
    intro x hx
    have : x = h := by simpa using hx
    simp [this]
  | cons y ys ih =>
    intro x hx
    have hred : (y :: ys).foldl min h = ys.foldl min (min h y) := rfl
    rw [hred]
    have hacc : ys.foldl min (min h y) ≤ min h y := ih (min h y) _ (List.mem_cons_self _ _)
    rcases List.mem_cons.mp hx with h1 | hx'
    · rw [h1]
      exact hacc.trans (min_le_left _ _)
    · rcases List.mem_cons.mp hx' with h2 | hxs
      · rw [h2]
        exact hacc.trans (min_le_right _ _)
      · exact ih _ _ (List.mem_cons_of_mem _ hxs)

theorem foldlMax_mem (h : ℝ) (t : List ℝ) : t.foldl max h ∈ h :: t := by
  induction t generalizing h with
  | nil => simp
  | cons x xs ih =>
    have hred : (x :: xs).foldl max h = xs.foldl max (max h x) := rfl
    rw [hred]
    rcases List.mem_cons.mp (ih (max h x)) with h1 | h2
    · rcases max_choice h x with hm | hm
      · rw [h1, hm]
        simp
      · rw [h1, hm]
        simp
    · simp [h2]

theorem foldlMax_ge (h : ℝ) (t : List ℝ) : ∀ x ∈ h :: t, x ≤ t.foldl max h := by
  induction t generalizing h with
  | nil =>
    intro x hx
    have : x = h := by simpa using hx
    simp [this]
  | cons y ys ih =>
    intro x hx
    have hred : (y :: ys).foldl max h = ys.foldl max (max h y) := rfl
    rw [hred]
    have hacc : max h y ≤ ys.foldl max (max h y) := ih (max h y) _ (List.mem_cons_self _ _)
    rcases List.mem_cons.mp hx with h1 | hx'
    · rw [h1]
      exact (le_max_left _ _).trans hacc
    · rcases List.mem_cons.mp hx' with h2 | hxs
      · rw [h2]
        exact (le_max_right _ _).trans hacc
      · exact ih _ _ (List.mem_cons_of_mem _ hxs)

theorem pyMinR_mem {l : List ℝ} (h : l ≠ []) : pyMinR l ∈ l := by
  obtain ⟨a, t, rfl⟩ := List.exists_cons_of_ne_nil h
  exact foldlMin_mem a t

theorem pyMinR_le {l : List ℝ} (h : l ≠ []) : ∀ x ∈ l, pyMinR l ≤ x := by
  obtain ⟨a, t, rfl⟩ := List.exists_cons_of_ne_nil h
  exact foldlMin_le a t

theorem pyMaxR_mem {l : List ℝ} (h : l ≠ []) : pyMaxR l ∈ l := by
  obtain ⟨a, t, rfl⟩ := List.exists_cons_of_ne_nil h
  exact foldlMax_mem a t

theorem pyMaxR_ge {l : List ℝ} (h : l ≠ []) : ∀ x ∈ l, x ≤ pyMaxR l := by
  obtain ⟨a, t, rfl⟩ := List.exists_cons_of_ne_nil h
  exact foldlMax_ge a t

/-- C9 (confirmed): the grid of `draw_pieces` spans exactly the rectangle
[min_x − 2, max_x + 2] × [min_y − 2, max_y + 2]: adding back the 2-unit
padding to each emitted corner recovers exactly the minimum (respectively
maximum) over all vertex coordinates of all pieces — a value attained by
some vertex and bounding all of them. -/
theorem c9_grid_bounds (ps : List RPiece) (hx : allX ps ≠ []) (hy : allY ps ≠ []) :
    ((gridCorners ps).1.1 + 2 ∈ allX ps ∧ ∀ x ∈ allX ps, (gridCorners ps).1.1 + 2 ≤ x) ∧
    ((gridCorners ps).1.2 + 2 ∈ allY ps ∧ ∀ y ∈ allY ps, (gridCorners ps).1.2 + 2 ≤ y) ∧
    ((gridCorners ps).2.1 - 2 ∈ allX ps ∧ ∀ x ∈ allX ps, x ≤ (gridCorners ps).2.1 - 2) ∧
    ((gridCorners ps).2.2 - 2 ∈ allY ps ∧ ∀ y ∈ allY ps, y ≤ (gridCorners ps).2.2 - 2) := by
  have e1 : ∀ a : ℝ, a - 2 + 2 = a := fun a => by ring
  have e2 : ∀ a : ℝ, a + 2 - 2 = a := fun a => by ring
  refine ⟨⟨?_, ?_⟩, ⟨?_, ?_⟩, ⟨?_, ?_⟩, ⟨?_, ?_⟩⟩
  · show pyMinR (allX ps) - 2 + 2 ∈ allX ps
    rw [e1]
    exact pyMinR_mem hx
  · intro x hxm
    show pyMinR (allX ps) - 2 + 2 ≤ x
    rw [e1]
    exact pyMinR_le hx x hxm
  · show pyMinR (allY ps) - 2 + 2 ∈ allY ps
    rw [e1]
    exact pyMinR_mem hy
  · intro y hym
    show pyMinR (allY ps) - 2 + 2 ≤ y
    rw [e1]
    exact pyMinR_le hy y hym
  · show pyMaxR (allX ps) + 2 - 2 ∈ allX ps
    rw [e2]
    exact pyMaxR_mem hx
  · intro x hxm
    show x ≤ pyMaxR (allX ps) + 2 - 2
    rw [e2]
    exact pyMaxR_ge hx x hxm
  · show pyMaxR (allY ps) + 2 - 2 ∈ allY ps
    rw [e2]
    exact pyMaxR_mem hy
  · intro y hym
    show y ≤ pyMaxR (allY ps) + 2 - 2
    rw [e2]
    exact pyMaxR_ge hy y hym

/-- C9 witness: `c9_grid_bounds` on one piece with vertices (0,0), (1,2). -/
theorem c9_grid_bounds_witness :
    (allX [⟨"Square", [((0 : ℝ), (0 : ℝ)), ((1 : ℝ), (2 : ℝ))]⟩] ≠ [] ∧ allY [⟨"Square", [((0 : ℝ), (0 : ℝ)), ((1 : ℝ), (2 : ℝ))]⟩] ≠ []) ∧
    (((gridCorners [⟨"Square", [((0 : ℝ), (0 : ℝ)), ((1 : ℝ), (2 : ℝ))]⟩]).1.1 + 2 ∈ allX [⟨"Square", [((0 : ℝ), (0 : ℝ)), ((1 : ℝ), (2 : ℝ))]⟩] ∧ ∀ x ∈ allX [⟨"Square", [((0 : ℝ), (0 : ℝ)), ((1 : ℝ), (2 : ℝ))]⟩], (gridCorners [⟨"Square", [((0 : ℝ), (0 : ℝ)), ((1 : ℝ), (2 : ℝ))]⟩]).1.1 + 2 ≤ x) ∧
    ((gridCorners [⟨"Square", [((0 : ℝ), (0 : ℝ)), ((1 : ℝ), (2 : ℝ))]⟩]).1.2 + 2 ∈ allY [⟨"Square", [((0 : ℝ), (0 : ℝ)), ((1 : ℝ), (2 : ℝ))]⟩] ∧ ∀ y ∈ allY [⟨"Square", [((0 : ℝ), (0 : ℝ)), ((1 : ℝ), (2 : ℝ))]⟩], (gridCorners [⟨"Square", [((0 : ℝ), (0 : ℝ)), ((1 : ℝ), (2 : ℝ))]⟩]).1.2 + 2 ≤ y) ∧
    ((gridCorners [⟨"Square", [((0 : ℝ), (0 : ℝ)), ((1 : ℝ), (2 : ℝ))]⟩]).2.1 - 2 ∈ allX [⟨"Square", [((0 : ℝ), (0 : ℝ)), ((1 : ℝ), (2 : ℝ))]⟩] ∧ ∀ x ∈ allX [⟨"Square", [((0 : ℝ), (0 : ℝ)), ((1 : ℝ), (2 : ℝ))]⟩], x ≤ (gridCorners [⟨"Square", [((0 : ℝ), (0 : ℝ)), ((1 : ℝ), (2 : ℝ))]⟩]).2.1 - 2) ∧
    ((gridCorners [⟨"Square", [((0 : ℝ), (0 : ℝ)), ((1 : ℝ), (2 : ℝ))]⟩]).2.2 - 2 ∈ allY [⟨"Square", [((0 : ℝ), (0 : ℝ)), ((1 : ℝ), (2 : ℝ))]⟩] ∧ ∀ y ∈ allY [⟨"Square", [((0 : ℝ), (0 : ℝ)), ((1 : ℝ), (2 : ℝ))]⟩], y ≤ (gridCorners [⟨"Square", [((0 : ℝ), (0 : ℝ)), ((1 : ℝ), (2 : ℝ))]⟩]).2.2 - 2)) :=
  ⟨⟨by simp [allX], by simp [allY]⟩,
    c9_grid_bounds [⟨"Square", [((0 : ℝ), (0 : ℝ)), ((1 : ℝ), (2 : ℝ))]⟩]
      (by simp [allX]) (by simp [allY])⟩

/-! ### Claim C6: the rotation round trip -/

theorem abs_round5_sub (x : ℝ) : |round5 x - x| ≤ 1 / 200000 := by
  unfold round5
  have h := abs_sub_round (x * 100000)
  have heq : ((round (x * 100000) : ℤ) : ℝ) / 100000 - x
      = -((x * 100000 - (round (x * 100000) : ℤ)) / 100000) := by ring
  rw [heq, abs_neg, abs_div, abs_of_pos (show (0 : ℝ) < 100000 by norm_num)]
  calc |x * 100000 - ((round (x * 100000) : ℤ) : ℝ)| / 100000
      ≤ (1 / 2) / 100000 := (div_le_div_iff_of_pos_right (by norm_num)).mpr h
    _ = 1 / 200000 := by norm_num

theorem round5_eq_of_bounds (x : ℝ) (n : ℤ) (h1 : (n : ℝ) ≤ x * 100000 + 1 / 2)
    (h2 : x * 100000 + 1 / 2 < (n : ℝ) + 1) : round5 x = (n : ℝ) / 100000 := by
  unfold round5
  rw [round_eq]
  have hfl : ⌊x * 100000 + 1 / 2⌋ = n := Int.floor_eq_iff.mpr ⟨h1, by exact_mod_cast h2⟩
  rw [hfl]

/-- Shared core of the round-trip bound: applying the rotation step with
(cos, sin) = (c, s) and then with (c, −s), each with 5-decimal rounding,
returns each coordinate to within three rounding half-units. -/
theorem roundtrip_core (c s x y : ℝ) (hp : s ^ 2 + c ^ 2 = 1)
    (hc1 : |c| ≤ 1) (hs1 : |s| ≤ 1) :
    |round5 (round5 (x * c - y * s) * c + round5 (x * s + y * c) * s) - x| ≤ 3 / 200000 ∧
    |round5 (round5 (x * s + y * c) * c - round5 (x * c - y * s) * s) - y| ≤ 3 / 200000 := by
  have hdX : |round5 (x * c - y * s) - (x * c - y * s)| ≤ 1 / 200000 := abs_round5_sub _
  have hdY : |round5 (x * s + y * c) - (x * s + y * c)| ≤ 1 / 200000 := abs_round5_sub _
  have key1 : |round5 (x * c - y * s) * c + round5 (x * s + y * c) * s - x| ≤ 1 / 100000 := by
    have hrw : round5 (x * c - y * s) * c + round5 (x * s + y * c) * s - x
        = (round5 (x * c - y * s) - (x * c - y * s)) * c
          + (round5 (x * s + y * c) - (x * s + y * c)) * s := by
      linear_combination x * hp
    rw [hrw]
    calc |(round5 (x * c - y * s) - (x * c - y * s)) * c
          + (round5 (x * s + y * c) - (x * s + y * c)) * s|
        ≤ |(round5 (x * c - y * s) - (x * c - y * s)) * c|
          + |(round5 (x * s + y * c) - (x * s + y * c)) * s| := abs_add _ _
      _ = |round5 (x * c - y * s) - (x * c - y * s)| * |c|
          + |round5 (x * s + y * c) - (x * s + y * c)| * |s| := by rw [abs_mul, abs_mul]
      _ ≤ 1 / 200000 * 1 + 1 / 200000 * 1 :=
          add_le_add (mul_le_mul hdX hc1 (abs_nonneg _) (by norm_num))
            (mul_le_mul hdY hs1 (abs_nonneg _) (by norm_num))
      _ = 1 / 100000 := by norm_num
  have key2 : |round5 (x * s + y * c) * c - round5 (x * c - y * s) * s - y| ≤ 1 / 100000 := by
    have hrw : round5 (x * s + y * c) * c - round5 (x * c - y * s) * s - y
        = (round5 (x * s + y * c) - (x * s + y * c)) * c
          + (round5 (x * c - y * s) - (x * c - y * s)) * (-s) := by
      linear_combination y * hp
    rw [hrw]
    calc |(round5 (x * s + y * c) - (x * s + y * c)) * c
          + (round5 (x * c - y * s) - (x * c - y * s)) * (-s)|
        ≤ |(round5 (x * s + y * c) - (x * s + y * c)) * c|
          + |(round5 (x * c - y * s) - (x * c - y * s)) * (-s)| := abs_add _ _
      _ = |round5 (x * s + y * c) - (x * s + y * c)| * |c|
          + |round5 (x * c - y * s) - (x * c - y * s)| * |s| := by
            rw [abs_mul, abs_mul, abs_neg]
      _ ≤ 1 / 200000 * 1 + 1 / 200000 * 1 :=
          add_le_add (mul_le_mul hdY hc1 (abs_nonneg _) (by norm_num))
            (mul_le_mul hdX hs1 (abs_nonneg _) (by norm_num))
      _ = 1 / 100000 := by norm_num
  constructor
  · calc |round5 (round5 (x * c - y * s) * c + round5 (x * s + y * c) * s) - x|
        = |(round5 (round5 (x * c - y * s) * c + round5 (x * s + y * c) * s)
            - (round5 (x * c - y * s) * c + round5 (x * s + y * c) * s))
            + (round5 (x * c - y * s) * c + round5 (x * s + y * c) * s - x)| := by
          congr 1
          ring
      _ ≤ |round5 (round5 (x * c - y * s) * c + round5 (x * s + y * c) * s)
            - (round5 (x * c - y * s) * c + round5 (x * s + y * c) * s)|
          + |round5 (x * c - y * s) * c + round5 (x * s + y * c) * s - x| := abs_add _ _
      _ ≤ 1 / 200000 + 1 / 100000 := add_le_add (abs_round5_sub _) key1
      _ = 3 / 200000 := by norm_num
  · calc |round5 (round5 (x * s + y * c) * c - round5 (x * c - y * s) * s) - y|
        = |(round5 (round5 (x * s + y * c) * c - round5 (x * c - y * s) * s)
            - (round5 (x * s + y * c) * c - round5 (x * c - y * s) * s))
            + (round5 (x * s + y * c) * c - round5 (x * c - y * s) * s - y)| := by
          congr 1
          ring
      _ ≤ |round5 (round5 (x * s + y * c) * c - round5 (x * c - y * s) * s)
            - (round5 (x * s + y * c) * c - round5 (x * c - y * s) * s)|
          + |round5 (x * s + y * c) * c - round5 (x * c - y * s) * s - y| := abs_add _ _
      _ ≤ 1 / 200000 + 1 / 100000 := add_le_add (abs_round5_sub _) key2
      _ = 3 / 200000 := by norm_num

/-- The round trip through `_rotate` by any pair of angles whose radian
images have equal cosine and opposite sine. -/
theorem rotatePt_roundtrip_aux (t t' x y : ℝ)
    (hc : Real.cos (t' * Real.pi / 180) = Real.cos (t * Real.pi / 180))
    (hs : Real.sin (t' * Real.pi / 180) = -Real.sin (t * Real.pi / 180)) :
    |(rotatePt (rotatePt x y t).1 (rotatePt x y t).2 t').1 - x| ≤ 3 / 200000 ∧
    |(rotatePt (rotatePt x y t).1 (rotatePt x y t).2 t').2 - y| ≤ 3 / 200000 := by
  have hX : (rotatePt x y t).1
      = round5 (x * Real.cos (t * Real.pi / 180) - y * Real.sin (t * Real.pi / 180)) := rfl
  have hY : (rotatePt x y t).2
      = round5 (x * Real.sin (t * Real.pi / 180) + y * Real.cos (t * Real.pi / 180)) := rfl
  have hcore := roundtrip_core (Real.cos (t * Real.pi / 180)) (Real.sin (t * Real.pi / 180))
    x y (Real.sin_sq_add_cos_sq _) (Real.abs_cos_le_one _) (Real.abs_sin_le_one _)
  constructor
  · have h1 : (rotatePt (rotatePt x y t).1 (rotatePt x y t).2 t').1
        = round5 (round5 (x * Real.cos (t * Real.pi / 180) - y * Real.sin (t * Real.pi / 180))
            * Real.cos (t * Real.pi / 180)
          + round5 (x * Real.sin (t * Real.pi / 180) + y * Real.cos (t * Real.pi / 180))
            * Real.sin (t * Real.pi / 180)) := by
      show round5 ((rotatePt x y t).1 * Real.cos (t' * Real.pi / 180)
          - (rotatePt x y t).2 * Real.sin (t' * Real.pi / 180)) = _
      rw [hc, hs, hX, hY]
      congr 1
      ring
    rw [h1]
    exact hcore.1
  · have h2 : (rotatePt (rotatePt x y t).1 (rotatePt x y t).2 t').2
        = round5 (round5 (x * Real.sin (t * Real.pi / 180) + y * Real.cos (t * Real.pi / 180))
            * Real.cos (t * Real.pi / 180)
          - round5 (x * Real.cos (t * Real.pi / 180) - y * Real.sin (t * Real.pi / 180))
            * Real.sin (t * Real.pi / 180)) := by
      show round5 ((rotatePt x y t).1 * Real.sin (t' * Real.pi / 180)
          + (rotatePt x y t).2 * Real.cos (t' * Real.pi / 180)) = _
      rw [hc, hs, hX, hY]
      congr 1
      ring
    rw [h2]
    exact hcore.2

/-- C6 (amended): rotating a point by θ degrees and then by −θ (or by
360 − θ) returns each coordinate of the original point to within
3·(1/200000) = 1.5·10⁻⁵ — three rounding half-units — but not always within
the single 5-decimal unit 10⁻⁵ (see the counterexample). -/
theorem c6_roundtrip_bound (x y t : ℝ) :
    (|(rotatePt (rotatePt x y t).1 (rotatePt x y t).2 (-t)).1 - x| ≤ 3 / 200000 ∧
      |(rotatePt (rotatePt x y t).1 (rotatePt x y t).2 (-t)).2 - y| ≤ 3 / 200000) ∧
    (|(rotatePt (rotatePt x y t).1 (rotatePt x y t).2 (360 - t)).1 - x| ≤ 3 / 200000 ∧
      |(rotatePt (rotatePt x y t).1 (rotatePt x y t).2 (360 - t)).2 - y| ≤ 3 / 200000) := by
  constructor
  · exact rotatePt_roundtrip_aux t (-t) x y
      (by rw [show -t * Real.pi / 180 = -(t * Real.pi / 180) by ring, Real.cos_neg])
      (by rw [show -t * Real.pi / 180 = -(t * Real.pi / 180) by ring, Real.sin_neg])
  · exact rotatePt_roundtrip_aux t (360 - t) x y
      (by rw [show (360 - t) * Real.pi / 180 = 2 * Real.pi - t * Real.pi / 180 by ring,
        Real.cos_sub, Real.cos_two_pi, Real.sin_two_pi]; ring)
      (by rw [show (360 - t) * Real.pi / 180 = 2 * Real.pi - t * Real.pi / 180 by ring,
        Real.sin_sub, Real.cos_two_pi, Real.sin_two_pi]; ring)

/-- C6 counterexample: at the angle θ with tan θ = 4/3 (so cos θ = 3/5,
sin θ = 4/5 exactly) and the point (3086·10⁻⁸, 1702·10⁻⁸), rotating by θ
and then by −θ moves the x coordinate by 1086·10⁻⁸ > 10⁻⁵: the intermediate
and final roundings compound beyond one 5-decimal unit, so the round trip
is not within the 5-decimal rounding tolerance claimed. -/
theorem c6_roundtrip_cex :
    1 / 100000 <
      |(rotatePt
          (rotatePt (3086 / 10 ^ 8) (1702 / 10 ^ 8) (Real.arctan (4 / 3) * 180 / Real.pi)).1
          (rotatePt (3086 / 10 ^ 8) (1702 / 10 ^ 8) (Real.arctan (4 / 3) * 180 / Real.pi)).2
          (-(Real.arctan (4 / 3) * 180 / Real.pi))).1
        - 3086 / 10 ^ 8| := by
  have hrad : Real.arctan (4 / 3) * 180 / Real.pi * Real.pi / 180 = Real.arctan (4 / 3) := by
    field_simp
  have hrad' : -(Real.arctan (4 / 3) * 180 / Real.pi) * Real.pi / 180
      = -Real.arctan (4 / 3) := by
    rw [show -(Real.arctan (4 / 3) * 180 / Real.pi) * Real.pi / 180
        = -(Real.arctan (4 / 3) * 180 / Real.pi * Real.pi / 180) by ring, hrad]
  have hsq : Real.sqrt (1 + (4 / 3 : ℝ) ^ 2) = 5 / 3 := by
    rw [show (1 : ℝ) + (4 / 3) ^ 2 = (5 / 3) ^ 2 by norm_num, Real.sqrt_sq (by norm_num)]
  have hcos : Real.cos (Real.arctan (4 / 3)) = 3 / 5 := by
    rw [Real.cos_arctan, hsq]
    norm_num
  have hsin : Real.sin (Real.arctan (4 / 3)) = 4 / 5 := by
    rw [Real.sin_arctan, hsq]
    norm_num
  have h1 : rotatePt (3086 / 10 ^ 8) (1702 / 10 ^ 8) (Real.arctan (4 / 3) * 180 / Real.pi)
      = ((0 : ℝ), (3 : ℝ) / 100000) := by
    show (round5 (3086 / 10 ^ 8
          * Real.cos (Real.arctan (4 / 3) * 180 / Real.pi * Real.pi / 180)
        - 1702 / 10 ^ 8
          * Real.sin (Real.arctan (4 / 3) * 180 / Real.pi * Real.pi / 180)),
      round5 (3086 / 10 ^ 8
          * Real.sin (Real.arctan (4 / 3) * 180 / Real.pi * Real.pi / 180)
        + 1702 / 10 ^ 8
          * Real.cos (Real.arctan (4 / 3) * 180 / Real.pi * Real.pi / 180)))
      = ((0 : ℝ), (3 : ℝ) / 100000)
    rw [hrad, hcos, hsin]
    rw [show (3086 : ℝ) / 10 ^ 8 * (3 / 5) - 1702 / 10 ^ 8 * (4 / 5) = 49 / 10 ^ 7 by norm_num]
    rw [show (3086 : ℝ) / 10 ^ 8 * (4 / 5) + 1702 / 10 ^ 8 * (3 / 5) = 349 / 10 ^ 7 by norm_num]
    have r1 : round5 ((49 : ℝ) / 10 ^ 7) = 0 := by
      have h := round5_eq_of_bounds ((49 : ℝ) / 10 ^ 7) 0 (by norm_num) (by norm_num)
      simpa using h
    have r2 : round5 ((349 : ℝ) / 10 ^ 7) = 3 / 100000 := by
      have h := round5_eq_of_bounds ((349 : ℝ) / 10 ^ 7) 3 (by norm_num) (by norm_num)
      simpa using h
    rw [r1, r2]
  rw [h1]
  have h2 : (rotatePt ((0 : ℝ), (3 : ℝ) / 100000).1 ((0 : ℝ), (3 : ℝ) / 100000).2
      (-(Real.arctan (4 / 3) * 180 / Real.pi))).1 = 2 / 100000 := by
    show round5 ((0 : ℝ)
        * Real.cos (-(Real.arctan (4 / 3) * 180 / Real.pi) * Real.pi / 180)
      - 3 / 100000
        * Real.sin (-(Real.arctan (4 / 3) * 180 / Real.pi) * Real.pi / 180)) = 2 / 100000
    rw [hrad', Real.cos_neg, Real.sin_neg, hcos, hsin]
    rw [show (0 : ℝ) * (3 / 5) - 3 / 100000 * -(4 / 5) = 12 / 500000 by norm_num]
    have h := round5_eq_of_bounds ((12 : ℝ) / 500000) 2 (by norm_num) (by norm_num)
    simpa using h
  rw [h2]
  rw [show (2 : ℝ) / 100000 - 3086 / 10 ^ 8 = -(1086 / 10 ^ 8) by norm_num, abs_neg,
    abs_of_pos (by norm_num : (0 : ℝ) < 1086 / 10 ^ 8)]
  norm_num

end Tangram
